import Mathlib

/-!
Verification development for the multi-target web-automation dispatch engine
of an Electron multi-AI chat application (source: src/App.tsx).

Text is modelled as `List Char` (one entry per code point); JavaScript string
operations (`trim`, `startsWith`, `includes`, `substring`, `split`) are
translated to the corresponding character-list operations.  Embedded-browser
surfaces ("webviews") are modelled by a `Handle` record that captures exactly
the capabilities the source queries (`executeJavaScript` presence and result,
`getURL` presence and result, `src`, `loadURL`, `reload`); a thrown exception
in a handle call is modelled as the corresponding failure value, matching the
source's catch-and-continue policy.  The registry of mounted webviews
(`webviewRefsMap`) is an association list in insertion order.
-/

/-- JavaScript whitespace test restricted to the ASCII whitespace that
`String.prototype.trim` removes on the inputs the app handles. -/
def isJsSpace (c : Char) : Bool :=
  c = ' ' || c = '\t' || c = '\n' || c = '\r'

/-- Model of `String.prototype.trim`: drop whitespace from both ends. -/
def trimChars (s : List Char) : List Char :=
  ((s.dropWhile isJsSpace).reverse.dropWhile isJsSpace).reverse

/-- Model of `String.prototype.includes`: substring test. -/
def hasSubstr (pat : List Char) : List Char → Bool
  | [] => pat.isEmpty
  | c :: rest => pat.isPrefixOf (c :: rest) || hasSubstr pat rest

/-- Model of `'...'.split(', ')` from `generateNewChatScript` method 2:
split a character list on the two-character separator comma-space. -/
def splitCommaSpace : List Char → List (List Char)
  | ',' :: ' ' :: rest => [] :: splitCommaSpace rest
  | c :: rest =>
    match splitCommaSpace rest with
    | [] => [[c]]
    | t :: ts => (c :: t) :: ts
  | [] => [[]]

/-- One configured AI service (source `aiList` entry:
`{ id, name, url, active, displayOrder }`). -/
structure AITarget where
  id : Nat
  name : String
  url : String
  active : Bool
  displayOrder : Int
deriving DecidableEq, Repr

/-- One captured session URL (source interface `AISessionUrl`). -/
structure AISessionUrl where
  aiId : Nat
  url : List Char
deriving DecidableEq, Repr

/-- One locally authored message (source interface `Message`). -/
structure Message where
  id : Nat
  content : List Char
  timestamp : Nat
deriving DecidableEq, Repr

/-- One conversation (source interface `Conversation`). -/
structure Conversation where
  id : Nat
  text : List Char
  pinned : Bool
  activeAIIds : List Nat
  messages : List Message
  aiUrls : List AISessionUrl
  createdAt : Nat
deriving DecidableEq, Repr

/-- Abstract handle to one embedded browser surface.  `canExec` models
`'executeJavaScript' in webview`; `execOk` tells whether the script execution
promise resolves (`true`) or rejects (`false`); `getURLResult` is `some u`
when the handle has a working `getURL` returning `u` and `none` when the
method is absent (or throws, which the source treats the same way by
catching); `src`, `hasLoadURL`, `hasReload` model the navigation surface. -/
structure Handle where
  canExec : Bool
  execOk : Bool
  getURLResult : Option (List Char)
  src : List Char
  hasLoadURL : Bool
  hasReload : Bool
deriving DecidableEq, Repr

/-- The mounted-webview registry `webviewRefsMap`, an id-keyed association
list in insertion order. -/
def lookupHandle (reg : List (Nat × Handle)) (id : Nat) : Option Handle :=
  (reg.find? (fun p => p.1 = id)).map (·.2)

/-- Outcome recorded for one target during a dispatch. -/
inductive Outcome where
  | success
  | failure
  | skipped
deriving DecidableEq, Repr

/-- One iteration of the `for (const ai of activeAIs)` loop in
`sendToAllAIs`: resolve the handle; skip (with a logged omission) when it is
absent or does not expose `executeJavaScript`; otherwise execute the
generated script and record resolution as success, rejection as failure. -/
def attemptTarget (reg : List (Nat × Handle)) (ai : AITarget) : Nat × Outcome :=
  match lookupHandle reg ai.id with
  | none => (ai.id, Outcome.skipped)
  | some h =>
    if h.canExec then
      if h.execOk then (ai.id, Outcome.success) else (ai.id, Outcome.failure)
    else (ai.id, Outcome.skipped)

/-- The sequential dispatch loop of `sendToAllAIs`, one attempt per target in
iteration order. -/
def sendLoop (reg : List (Nat × Handle)) : List AITarget → List (Nat × Outcome)
  | [] => []
  | ai :: rest => attemptTarget reg ai :: sendLoop reg rest

/-- `sendToAllAIs`: filter the active targets and attempt each in order. -/
def sendToAllAIs (l : List AITarget) (reg : List (Nat × Handle)) :
    List (Nat × Outcome) :=
  sendLoop reg (l.filter (fun ai => ai.active))

/-- Number of active targets in an AI list. -/
def activeCount (l : List AITarget) : Nat :=
  (l.filter (fun a => a.active)).length

/-- Source constant `MAX_ACTIVE_AI`. -/
def MAX_ACTIVE_AI : Nat := 6

/-- `Math.max(...prev.filter(a => a.active).map(a => a.displayOrder || 0), 0)`
from `handleToggleAIActive`. -/
def maxActiveOrder (l : List AITarget) : Int :=
  ((l.filter (fun a => a.active)).map (fun a => a.displayOrder)).foldr max 0

/-- The state update of `handleToggleAIActive` once the over-limit guard has
passed: flip the matching target's flag, assigning `maxOrder + 1` on
activation and `0` on deactivation.  The maximum `m` is computed from the
pre-update list by the caller. -/
def toggleUpdate (m : Int) (id : Nat) (l : List AITarget) : List AITarget :=
  l.map fun a =>
    if a.id = id then
      { a with active := !a.active, displayOrder := if !a.active then m + 1 else 0 }
    else a

/-- `handleToggleAIActive`: activating a target when `MAX_ACTIVE_AI` are
already active is refused with a transient over-limit hint (second component
`true`); otherwise the toggle update is applied. -/
def handleToggleAIActive (l : List AITarget) (id : Nat) : List AITarget × Bool :=
  match l.find? (fun a => a.id = id) with
  | some ai =>
    if ai.active = false ∧ MAX_ACTIVE_AI ≤ activeCount l then
      (l, true)
    else
      (toggleUpdate (maxActiveOrder l) id l, false)
  | none => (toggleUpdate (maxActiveOrder l) id l, false)

/-- `handleDeleteAI`: remove the target with the given id from the AI list. -/
def handleDeleteAI (l : List AITarget) (id : Nat) : List AITarget :=
  l.filter (fun a => a.id != id)

/-- The active-flag synchronization effect (`useEffect` on `aiList`): when no
conversation switch is in progress, the current conversation's recorded
active-target set is overwritten with the ids of the currently active
targets. -/
def syncActiveAIIds (convs : List Conversation) (currentId : Nat)
    (l : List AITarget) : List Conversation :=
  let currentActiveAIIds := (l.filter (fun ai => ai.active)).map (fun ai => ai.id)
  convs.map fun c =>
    if c.id = currentId then { c with activeAIIds := currentActiveAIIds } else c

/-- Deleting a target followed by the synchronization effect that the
resulting `aiList` change triggers (the switching flag is not held during a
delete, so the sync always fires). -/
def deleteAIStep (l : List AITarget) (convs : List Conversation)
    (currentId delId : Nat) : (List AITarget) × List Conversation :=
  let l' := handleDeleteAI l delId
  (l', syncActiveAIIds convs currentId l')

/-- `handleSwitchAI`, swap branch: the target column is already active, so
the two display orders are exchanged (`fromOrder`/`toOrder` read with the
source's `|| 0` fallbacks). -/
def switchSwap (l : List AITarget) (fromId toId : Nat) : List AITarget :=
  let fromOrder := ((l.find? (fun a => a.id = fromId)).map (fun a => a.displayOrder)).getD 0
  let toOrder := ((l.find? (fun a => a.id = toId)).map (fun a => a.displayOrder)).getD 0
  l.map fun ai =>
    if ai.id = fromId then { ai with displayOrder := toOrder }
    else if ai.id = toId then { ai with displayOrder := fromOrder }
    else ai

/-- `handleSwitchAI`, replace branch: the target is not in use, so the source
column is deactivated and the target takes over its display order. -/
def switchReplace (l : List AITarget) (fromId toId : Nat) : List AITarget :=
  let originalOrder := ((l.find? (fun a => a.id = fromId)).map (fun a => a.displayOrder)).getD 0
  l.map fun ai =>
    if ai.id = fromId then { ai with active := false, displayOrder := 0 }
    else if ai.id = toId then { ai with active := true, displayOrder := originalOrder }
    else ai

/-- `handleSwitchAI`: swap when the target AI is already active
(`toAI?.active`), otherwise replace. -/
def handleSwitchAI (l : List AITarget) (fromId toId : Nat) : List AITarget :=
  if ((l.find? (fun a => a.id = toId)).map (fun a => a.active)).getD false then
    switchSwap l fromId toId
  else
    switchReplace l fromId toId

/-- The AI-state restoration inside `handleSwitchConversation`: when the
switched-to conversation has a non-empty recorded active set, each target
becomes active exactly when its id is recorded, taking display order
`indexOf + 1`; with an empty recorded set the AI list is left untouched. -/
def restoreAIState (l : List AITarget) (recorded : List Nat) : List AITarget :=
  if recorded.isEmpty then l
  else
    l.map fun ai =>
      { ai with
        active := recorded.contains ai.id,
        displayOrder :=
          if recorded.contains ai.id then (recorded.indexOf ai.id : Int) + 1 else 0 }

/-- The branch action scheduled after a conversation switch. -/
inductive SwitchFollowUp where
  | restoreUrls (urls : List AISessionUrl)
  | resetNewChat
deriving DecidableEq, Repr

/-- `handleSwitchConversation`: find the target conversation (silently doing
nothing when absent), make it current, restore its recorded AI state, and
schedule either URL restoration (non-empty saved mapping) or a
new-conversation reset.  Result: new current id, new AI list, follow-up. -/
def handleSwitchConversation (convs : List Conversation) (l : List AITarget)
    (conversationId : Nat) : Option (Nat × List AITarget × SwitchFollowUp) :=
  match convs.find? (fun c => c.id = conversationId) with
  | none => none
  | some conv =>
    let l' := restoreAIState l conv.activeAIIds
    some (conversationId, l',
      if conv.aiUrls.isEmpty then SwitchFollowUp.resetNewChat
      else SwitchFollowUp.restoreUrls conv.aiUrls)

/-- The URL-capture pass scheduled 2 time units after a dispatch: read every
registered handle that exposes a working `getURL`, keeping non-empty URLs. -/
def captureUrls (reg : List (Nat × Handle)) : List AISessionUrl :=
  reg.filterMap fun p =>
    match p.2.getURLResult with
    | some url => if url.isEmpty then none else some ⟨p.1, url⟩
    | none => none

/-- Applying the captured URLs: only when at least one URL was obtained is
the conversation that was current at send time overwritten with the new
mapping; otherwise the conversation list is untouched. -/
def captureStep (convs : List Conversation) (sendTimeId : Nat)
    (reg : List (Nat × Handle)) : List Conversation :=
  let urls := captureUrls reg
  if 0 < urls.length then
    convs.map fun c => if c.id = sendTimeId then { c with aiUrls := urls } else c
  else convs

/-- `navigateAIsToUrls`: the per-pair current URL, `getURL()` when the method
exists, else the `src` attribute. -/
def handleCurrentUrl (h : Handle) : List Char :=
  match h.getURLResult with
  | some u => u
  | none => h.src

/-- What URL restoration does for one (target, URL) pair. -/
inductive NavAction where
  | noop (aiId : Nat)
  | skip (aiId : Nat)
  | load (aiId : Nat) (url : List Char)
  | setSrc (aiId : Nat) (url : List Char) (reloaded : Bool)
deriving DecidableEq, Repr

/-- One iteration of the `navigateAIsToUrls` loop: nothing without a live
handle or with an empty URL; skip when already at the stored URL; prefer
`loadURL`; else assign `src` and reload when the handle supports it. -/
def navigateOne (reg : List (Nat × Handle)) (p : AISessionUrl) : NavAction :=
  match lookupHandle reg p.aiId with
  | none => NavAction.noop p.aiId
  | some h =>
    if p.url.isEmpty then NavAction.noop p.aiId
    else if handleCurrentUrl h = p.url then NavAction.skip p.aiId
    else if h.hasLoadURL then NavAction.load p.aiId p.url
    else NavAction.setSrc p.aiId p.url h.hasReload

/-- `navigateAIsToUrls`: process every stored (target, URL) pair in order. -/
def navigateAIsToUrls (reg : List (Nat × Handle)) (aiUrls : List AISessionUrl) :
    List NavAction :=
  aiUrls.map (navigateOne reg)

/-- The keyboard-shortcut entry of an automation profile
(`newChatShortcut`); the modifier fields are optional in the source and
default to `false` via `|| false` at script-generation time. -/
structure ShortcutSpec where
  key : Char
  ctrlKey : Option Bool
  shiftKey : Option Bool
  altKey : Option Bool
deriving DecidableEq, Repr

/-- The new-conversation-relevant part of an automation profile (fields
`newChatSelector`, `newChatShortcut`, `newChatText`, `newChatUrl` of
`AI_INPUT_CONFIG` entries). -/
structure NewChatConfig where
  newChatSelector : Option (List Char)
  newChatShortcut : Option ShortcutSpec
  newChatText : Option (List Char)
  newChatUrl : Option (List Char)
deriving DecidableEq, Repr

/-- A synthesized keyboard event (the fields the generated script sets that
distinguish events; `code`/`keyCode` are derived from `key` and omitted). -/
structure KeyEventFlags where
  key : Char
  ctrlKey : Bool
  shiftKey : Bool
  altKey : Bool
  metaKey : Bool
deriving DecidableEq, Repr

/-- The behavior of a generated new-conversation script: full navigation,
a keydown/keyup pair on the document, or a three-phase DOM button search. -/
inductive NewChatScript where
  | navigate (url : List Char)
  | shortcut (down : KeyEventFlags) (up : KeyEventFlags)
  | search (exactText : List Char) (selectors : List (List Char))
      (keywords : List (List Char))
deriving DecidableEq, Repr

/-- The fallback keyword phrases of `generateNewChatScript` method 3. -/
def newChatKeywords : List (List Char) :=
  [['新', '建', '对', '话'],
   ['开', '启', '新', '对', '话'],
   ['新', '对', '话'],
   ['N', 'e', 'w', ' ', 'C', 'h', 'a', 't'],
   ['新', '会', '话']]

/-- `generateNewChatScript`: URL navigation takes precedence, then the
keyboard shortcut, then the exact-text / selector / keyword button search. -/
def generateNewChatScript (cfg : NewChatConfig) : NewChatScript :=
  match cfg.newChatUrl with
  | some url => NewChatScript.navigate url
  | none =>
    match cfg.newChatShortcut with
    | some s =>
      NewChatScript.shortcut
        ⟨s.key, s.ctrlKey.getD false, s.shiftKey.getD false, s.altKey.getD false, false⟩
        ⟨s.key, s.ctrlKey.getD false, s.shiftKey.getD false, s.altKey.getD false, false⟩
    | none =>
      NewChatScript.search (cfg.newChatText.getD [])
        (splitCommaSpace (cfg.newChatSelector.getD [])) newChatKeywords

/-- One DOM element as the generated search script observes it: trimmed
text, visibility (`offsetParent !== null`), dropdown ancestry
(`closest('[class*="dropdown"]')`), the selectors it matches, and whether it
is returned by the two `querySelectorAll` pools (method 1 queries
`button, div[role="button"], a, span, div`; method 3 queries
`button, div[role="button"], a, span, div[class*="btn"],
div[class*="button"]`). -/
structure DomElement where
  text : List Char
  visible : Bool
  inDropdown : Bool
  selMatches : List (List Char)
  inExactPool : Bool
  inKeywordPool : Bool
deriving DecidableEq, Repr

/-- Method 1 of the search script: walk the element pool and click the first
visible element whose text equals the configured label or starts with it. -/
def findExactLoop (exact : List Char) : List DomElement → Option DomElement
  | [] => none
  | el :: rest =>
    if el.inExactPool && (el.text == exact || exact.isPrefixOf el.text) && el.visible
    then some el
    else findExactLoop exact rest

/-- Method 2 of the search script: for each selector, take the document's
first matching element and click it when visible (an invisible or missing
first match moves on to the next selector; selector errors are caught and
behave like a missing match). -/
def findSelectorLoop (dom : List DomElement) : List (List Char) → Option DomElement
  | [] => none
  | sel :: rest =>
    match dom.find? (fun el => el.selMatches.contains sel) with
    | some el => if el.visible then some el else findSelectorLoop dom rest
    | none => findSelectorLoop dom rest

/-- The keyword test of method 3: exact keyword text, or containment in a
short text (fewer than 20 characters). -/
def textMatchesKeyword (t kw : List Char) : Bool :=
  t == kw || (hasSubstr kw t && t.length < 20)

/-- Inner loop of method 3: first visible keyword match outside dropdown
containers. -/
def findKwInner (kw : List Char) : List DomElement → Option DomElement
  | [] => none
  | el :: rest =>
    if el.inKeywordPool && textMatchesKeyword el.text kw && el.visible && !el.inDropdown
    then some el
    else findKwInner kw rest

/-- Outer loop of method 3: keywords in priority order. -/
def findKeywordLoop (dom : List DomElement) : List (List Char) → Option DomElement
  | [] => none
  | kw :: rest =>
    match findKwInner kw dom with
    | some el => some el
    | none => findKeywordLoop dom rest

/-- The complete button search of the generated script: method 1 only when a
non-empty exact text is configured (`if (exactText)`), then method 2, then
method 3; the result is the clicked element, or `none` when the script
returns `false`. -/
def runNewChatSearch (exact : List Char) (selectors keywords : List (List Char))
    (dom : List DomElement) : Option DomElement :=
  match (if exact.isEmpty then none else findExactLoop exact dom) with
  | some el => some el
  | none =>
    match findSelectorLoop dom selectors with
    | some el => some el
    | none => findKeywordLoop dom keywords

/-- Modelled from the spec: the search behavior as the claim words it —
"searches for a visible element by exact configured label, then by selector,
then by fallback keyword phrases, clicking the first match and excluding
elements inside dropdown containers" — i.e. exact equality only in the label
phase and the dropdown exclusion applied in every phase. -/
def claimNewChatSearch (exact : List Char) (selectors keywords : List (List Char))
    (dom : List DomElement) : Option DomElement :=
  match (if exact.isEmpty then none
         else dom.find? fun el =>
           el.inExactPool && el.text == exact && el.visible && !el.inDropdown) with
  | some el => some el
  | none =>
    match (selectors.findSome? fun sel =>
        match dom.find? (fun el => el.selMatches.contains sel) with
        | some el => if el.visible && !el.inDropdown then some el else none
        | none => none) with
    | some el => some el
    | none =>
      keywords.findSome? fun kw =>
        dom.find? fun el =>
          el.inKeywordPool && textMatchesKeyword el.text kw && el.visible && !el.inDropdown

/-- The `'新会话'` prefix that marks a conversation title as still
auto-derivable. -/
def newChatMark : List Char := ['新', '会', '话']

/-- Title derivation from a sent message: truncate to 30 characters with an
ellipsis (`text.substring(0, 30) + '...'`). -/
def deriveTitle (text : List Char) : List Char :=
  if 30 < text.length then text.take 30 ++ ['.', '.', '.'] else text

/-- Everything `handleSendClick` produces: the updated conversation list, the
untouched AI list, the new input value, the transient hint flags, the
per-target dispatch outcomes, and the conversation id captured for the
delayed URL-capture pass (`none` when no capture was scheduled). -/
structure SendOutput where
  conversations : List Conversation
  aiList : List AITarget
  inputValue : List Char
  isShaking : Bool
  showInputHint : Bool
  outcomes : List (Nat × Outcome)
  captureFor : Option Nat
deriving DecidableEq, Repr

/-- `handleSendClick`: a blank input only shakes the button and shows the
hint; otherwise the trimmed text is appended to the current conversation as
one new message, the title is re-derived while it still carries the
new-conversation mark, the input is cleared, the dispatch runs over all
active targets, and a URL capture is scheduled for the conversation that is
current at send time. -/
def handleSendClick (input : List Char) (convs : List Conversation)
    (activeId : Nat) (l : List AITarget) (reg : List (Nat × Handle)) (now : Nat)
    (shaking0 hint0 : Bool) : SendOutput :=
  if trimChars input = [] then
    { conversations := convs, aiList := l, inputValue := input,
      isShaking := true, showInputHint := true, outcomes := [], captureFor := none }
  else
    let text := trimChars input
    let newMessage : Message := { id := now, content := text, timestamp := now }
    let convs' := convs.map fun c =>
      if c.id = activeId then
        { c with
          text := if newChatMark.isPrefixOf c.text then deriveTitle text else c.text,
          messages := c.messages ++ [newMessage] }
      else c
    { conversations := convs', aiList := l, inputValue := [],
      isShaking := shaking0, showInputHint := hint0,
      outcomes := sendToAllAIs l reg, captureFor := some activeId }

/-- The display-order invariant of the data model: inactive targets carry
order 0, active targets carry positive orders, and active targets with
distinct ids carry distinct orders. -/
def orderInv (l : List AITarget) : Prop :=
  (∀ a ∈ l, a.active = false → a.displayOrder = 0) ∧
  (∀ a ∈ l, a.active = true → 0 < a.displayOrder) ∧
  (∀ a ∈ l, ∀ b ∈ l, a.active = true → b.active = true → a.id ≠ b.id →
    a.displayOrder ≠ b.displayOrder)

/-- The claim's stronger density requirement: on top of `orderInv`, the
active orders are exactly the dense rank 1..n over the n active targets. -/
def denseInv (l : List AITarget) : Prop :=
  orderInv l ∧
  ∀ i ∈ List.range (activeCount l), ∃ a ∈ l, a.active = true ∧
    a.displayOrder = (i : Int) + 1

instance (l : List AITarget) : Decidable (orderInv l) := by
  unfold orderInv; infer_instance

instance (l : List AITarget) : Decidable (denseInv l) := by
  unfold denseInv; infer_instance

/-- The three phases of the generated button search, phrased with
first-match combinators (`find?` per phase, `findSome?` over selectors and
keywords); the amended C3 theorem proves the generated search loops equal to
this characterization. -/
def searchSpec (exact : List Char) (selectors keywords : List (List Char))
    (dom : List DomElement) : Option DomElement :=
  (if exact.isEmpty then none
   else dom.find? fun el =>
     el.inExactPool && (el.text == exact || exact.isPrefixOf el.text) && el.visible) <|>
  (selectors.findSome? fun sel =>
    match dom.find? (fun el => el.selMatches.contains sel) with
    | some el => if el.visible then some el else none
    | none => none) <|>
  (keywords.findSome? fun kw =>
    dom.find? fun el =>
      el.inKeywordPool && textMatchesKeyword el.text kw && el.visible && !el.inDropdown)

/-! ## Concrete example inputs used by witnesses and counterexamples -/

def C3exact : List Char := ['S', 't', 'a', 'r', 't', ' ', 'f', 'r', 'e', 's', 'h']

def C3el : DomElement :=
  ⟨['S', 't', 'a', 'r', 't', ' ', 'f', 'r', 'e', 's', 'h', ' ', 'n', 'o', 'w',
    ' ', 'p', 'l', 'e', 'a', 's', 'e'], true, false, [], true, true⟩

def C3dom : List DomElement := [C3el]

def C3cfg : NewChatConfig := ⟨none, none, some C3exact, none⟩

def C3cfgUrl : NewChatConfig := ⟨none, none, none, some ['u']⟩

def C3cfgShortcut : NewChatConfig := ⟨none, some ⟨'j', some true, none, none⟩, none, none⟩

def C6l : List AITarget := [⟨5, "X", "", true, 1⟩]

def C6conv1 : Conversation := ⟨1, ['a'], false, [5], [], [], 0⟩

def C6conv2 : Conversation := ⟨2, ['b'], false, [5], [], [], 0⟩

def C6convs : List Conversation := [C6conv1, C6conv2]

def C6conv1upd : Conversation := ⟨1, ['a'], false, [], [], [], 0⟩

def C9conv0 : Conversation := ⟨1, ['新', '会', '话', ' ', '1'], false, [], [], [], 0⟩

def C9convs0 : List Conversation := [C9conv0]

def C9convR : Conversation := ⟨1, ['T'], false, [], [], [], 0⟩

def C1exList : List AITarget :=
  [⟨1, "Google AI", "https://www.google.com/search?udm=50", true, 1⟩,
   ⟨2, "DeepSeek", "https://chat.deepseek.com/", true, 2⟩,
   ⟨5, "DB", "https://www.doubao.com/chat/", false, 0⟩]

def C1exReg : List (Nat × Handle) :=
  [(1, ⟨true, false, none, [], true, true⟩)]

def C2exList : List AITarget :=
  [⟨1, "A", "", true, 1⟩, ⟨2, "B", "", true, 2⟩, ⟨3, "C", "", true, 3⟩,
   ⟨4, "D", "", true, 4⟩, ⟨5, "E", "", true, 5⟩, ⟨6, "F", "", true, 6⟩,
   ⟨7, "G", "", false, 0⟩]

def C4conv1 : Conversation := ⟨1, ['t', '1'], false, [1], [], [], 0⟩

def C4conv2 : Conversation := ⟨2, ['t', '2'], false, [1], [], [⟨9, ['x']⟩], 0⟩

def C4convs : List Conversation := [C4conv1, C4conv2]

def C4regEmpty : List (Nat × Handle) :=
  [(1, ⟨true, true, none, [], true, true⟩),
   (2, ⟨true, true, some [], [], true, true⟩)]

def C4regFull : List (Nat × Handle) :=
  [(1, ⟨true, true, some ['h', 't', 't', 'p'], [], true, true⟩)]

def C7conv : Conversation := ⟨1, ['c'], false, [99, 1], [], [], 0⟩

def C7convs : List Conversation := [C7conv]

def C7l : List AITarget := [⟨1, "A", "", false, 0⟩, ⟨2, "B", "", true, 1⟩]

def C8h1 : Handle := ⟨true, true, some ['u', '1'], [], true, true⟩

def C8h2 : Handle := ⟨true, true, some ['o', 'l', 'd'], [], true, true⟩

def C8h3 : Handle := ⟨true, true, none, ['o', 'l', 'd'], false, true⟩

def C8reg : List (Nat × Handle) := [(1, C8h1), (2, C8h2), (3, C8h3)]

def C8urls : List AISessionUrl :=
  [⟨1, ['u', '1']⟩, ⟨2, ['u', '2']⟩, ⟨3, ['u', '3']⟩]

def C10convs : List Conversation := [⟨1, ['t'], false, [1], [], [], 0⟩]

def C10l : List AITarget := [⟨1, "A", "", true, 1⟩]

def C5exList : List AITarget := [⟨1, "A", "", true, 1⟩, ⟨2, "B", "", true, 2⟩]

/-! ## Helper lemmas -/

theorem sendLoop_eq_map (reg : List (Nat × Handle)) (l : List AITarget) :
    sendLoop reg l = l.map (attemptTarget reg) := by
  induction l with
  | nil => rfl
  | cons a rest ih => simp [sendLoop, ih]

theorem attemptTarget_fst (reg : List (Nat × Handle)) (ai : AITarget) :
    (attemptTarget reg ai).1 = ai.id := by
  unfold attemptTarget
  cases lookupHandle reg ai.id with
  | none => rfl
  | some h =>
    by_cases hc : h.canExec <;> by_cases ho : h.execOk <;> simp [hc, ho]

theorem toggleUpdate_of_find?_none (m : Int) (id : Nat) (l : List AITarget)
    (h : l.find? (fun a => a.id = id) = none) :
    toggleUpdate m id l = l := by
  rw [List.find?_eq_none] at h
  unfold toggleUpdate
  rw [List.map_congr_left, List.map_id]
  intro a ha
  have := h a ha
  simp at this
  simp [this]

theorem toggleUpdate_of_no_match (m : Int) (id : Nat) (l : List AITarget)
    (h : ∀ a ∈ l, a.id ≠ id) :
    toggleUpdate m id l = l := by
  unfold toggleUpdate
  rw [List.map_congr_left, List.map_id]
  intro a ha
  simp [h a ha]

theorem activeCount_cons (a : AITarget) (l : List AITarget) :
    activeCount (a :: l) = (if a.active = true then 1 else 0) + activeCount l := by
  by_cases h : a.active = true <;>
    simp [activeCount, List.filter_cons, h, Nat.add_comm]

theorem activeCount_toggleUpdate (m : Int) (id : Nat) (l : List AITarget)
    (hids : (l.map (fun a => a.id)).Nodup) (ai : AITarget)
    (hfind : l.find? (fun a => a.id = id) = some ai) :
    activeCount (toggleUpdate m id l) =
      if ai.active = true then activeCount l - 1 else activeCount l + 1 := by
  induction l with
  | nil => simp at hfind
  | cons a rest ih =>
    simp only [List.map_cons, List.nodup_cons] at hids
    by_cases ha : a.id = id
    · have hai : ai = a := by
        rw [List.find?_cons_of_pos] at hfind
        · exact (Option.some_inj.mp hfind).symm
        · simp [ha]
      subst hai
      have hrest : toggleUpdate m id rest = rest := by
        apply toggleUpdate_of_no_match
        intro b hb hbid
        have hbmem : b.id ∈ List.map (fun a => a.id) rest :=
          List.mem_map.mpr ⟨b, hb, rfl⟩
        rw [hbid, ← ha] at hbmem
        exact hids.1 hbmem
      have hcons : toggleUpdate m id (ai :: rest) =
          { ai with active := !ai.active, displayOrder := if !ai.active then m + 1 else 0 } :: toggleUpdate m id rest := by
        simp [toggleUpdate, ha]
      rw [hcons, hrest, activeCount_cons, activeCount_cons]
      cases hact : ai.active <;> simp [hact] <;> omega
    · have hfind' : rest.find? (fun a => a.id = id) = some ai := by
        rw [List.find?_cons_of_neg] at hfind
        · exact hfind
        · simp [ha]
      have hcons : toggleUpdate m id (a :: rest) = a :: toggleUpdate m id rest := by
        unfold toggleUpdate
        simp [ha]
      rw [hcons]
      have hmem : ai ∈ rest := List.mem_of_find?_eq_some hfind'
      have hrec := ih hids.2 hfind'
      have hone : ai.active = true → 1 ≤ activeCount rest := by
        intro hact
        have hmf : ai ∈ rest.filter (fun a => a.active) :=
          List.mem_filter.mpr ⟨hmem, by simp [hact]⟩
        have := List.length_pos.mpr (List.ne_nil_of_mem hmf)
        simpa [activeCount] using this
      rw [activeCount_cons, activeCount_cons]
      cases hact : ai.active with
      | false =>
        simp only [hact, Bool.false_eq_true, if_false] at hrec
        rw [hrec]
        by_cases haact : a.active = true <;> simp [haact] <;> omega
      | true =>
        simp only [hact, if_true] at hrec
        rw [hrec]
        have h1 := hone hact
        by_cases haact : a.active = true <;> simp [haact] <;> omega

/-! ## C1: dispatch attempts every active target -/

/-- C1: for every set of active targets (in particular any of size 1 to 6),
`sendToAllAIs` produces exactly one recorded outcome per active target, in
target-iteration order; the outcome at each position is computed from that
target and the registry alone, so a rejected execution or an absent handle
for one target does not prevent or alter the attempts on the others, and the
call completes only once every attempt (success, failure or skip) is in the
list. -/
theorem sendToAllAIs_attempts_every_target (l : List AITarget)
    (reg : List (Nat × Handle))
    (h1 : 1 ≤ activeCount l) (h6 : activeCount l ≤ 6) :
    (sendToAllAIs l reg).length = activeCount l ∧
    (sendToAllAIs l reg).map Prod.fst =
      (l.filter (fun ai => ai.active)).map (fun ai => ai.id) ∧
    ∀ (i : Nat) (ai : AITarget), (l.filter (fun ai => ai.active))[i]? = some ai →
      (sendToAllAIs l reg)[i]? = some (attemptTarget reg ai) := by
  unfold sendToAllAIs
  rw [sendLoop_eq_map]
  refine ⟨by simp [activeCount], ?_, ?_⟩
  · rw [List.map_map]
    apply List.map_congr_left
    intro a _
    exact attemptTarget_fst reg a
  · intro i ai hi
    rw [List.getElem?_map, hi]
    rfl

/-- Witness for C1 at a concrete two-active-target state in which the first
target's execution rejects and the second has no registered handle. -/
theorem sendToAllAIs_attempts_every_target_witness :
    (sendToAllAIs C1exList C1exReg).length = activeCount C1exList ∧
    (sendToAllAIs C1exList C1exReg).map Prod.fst =
      (C1exList.filter (fun ai => ai.active)).map (fun ai => ai.id) := by
  have h := sendToAllAIs_attempts_every_target C1exList C1exReg
    (by decide) (by decide)
  exact ⟨h.1, h.2.1⟩

/-! ## C2: the six-active-target limit -/

/-- C2: with the maximum number (6) of targets active, toggling any inactive
target is refused: the AI list is returned unchanged (so that target's
active flag stays false) and only the transient over-limit hint is raised;
moreover every toggle, on a list with distinct ids, keeps the active count
within the maximum. -/
theorem handleToggleAIActive_respects_limit (l : List AITarget)
    (hids : (l.map (fun a => a.id)).Nodup) :
    (∀ id ai, l.find? (fun a => a.id = id) = some ai → ai.active = false →
      activeCount l = MAX_ACTIVE_AI →
      handleToggleAIActive l id = (l, true)) ∧
    (∀ id, activeCount l ≤ MAX_ACTIVE_AI →
      activeCount (handleToggleAIActive l id).1 ≤ MAX_ACTIVE_AI) := by
  constructor
  · intro id ai hfind hinact hcount
    have hguard : ai.active = false ∧ MAX_ACTIVE_AI ≤ activeCount l :=
      ⟨hinact, le_of_eq hcount.symm⟩
    simp [handleToggleAIActive, hfind, if_pos hguard]
  · intro id hle
    cases hfind : l.find? (fun a => a.id = id) with
    | none =>
      have heq : handleToggleAIActive l id =
          (toggleUpdate (maxActiveOrder l) id l, false) := by
        simp [handleToggleAIActive, hfind]
      rw [heq, toggleUpdate_of_find?_none _ _ _ hfind]
      exact hle
    | some ai =>
      by_cases hguard : ai.active = false ∧ MAX_ACTIVE_AI ≤ activeCount l
      · have heq : handleToggleAIActive l id = (l, true) := by
          simp [handleToggleAIActive, hfind, if_pos hguard]
        rw [heq]
        exact hle
      · have heq : handleToggleAIActive l id =
            (toggleUpdate (maxActiveOrder l) id l, false) := by
          simp [handleToggleAIActive, hfind, if_neg hguard]
        rw [heq]
        show activeCount (toggleUpdate (maxActiveOrder l) id l) ≤ MAX_ACTIVE_AI
        have hcnt := activeCount_toggleUpdate (maxActiveOrder l) id l hids ai hfind
        cases hact : ai.active with
        | false =>
          have hlt : activeCount l < MAX_ACTIVE_AI := by
            by_contra hge
            exact hguard ⟨hact, le_of_not_lt hge⟩
          simp [hact] at hcnt
          omega
        | true =>
          simp [hact] at hcnt
          omega

/-- Witness for C2: six targets active, activating the seventh is refused
with the over-limit hint and the list survives unchanged. -/
theorem handleToggleAIActive_respects_limit_witness :
    handleToggleAIActive C2exList 7 = (C2exList, true) ∧
    activeCount (handleToggleAIActive C2exList 7).1 ≤ MAX_ACTIVE_AI := by
  have h := handleToggleAIActive_respects_limit C2exList (by decide)
  exact ⟨h.1 7 ⟨7, "G", "", false, 0⟩ (by decide) rfl (by decide),
    h.2 7 (by decide)⟩

/-! ## C4: capture-empty leaves conversations untouched; capture writes by id -/

theorem captureUrls_eq_nil (reg : List (Nat × Handle))
    (h : ∀ p ∈ reg, p.2.getURLResult.getD [] = []) :
    captureUrls reg = [] := by
  induction reg with
  | nil => rfl
  | cons p rest ih =>
    have hp := h p (List.mem_cons_self _ _)
    have hrest := ih (fun q hq => h q (List.mem_cons_of_mem _ hq))
    simp only [captureUrls, List.filterMap_cons] at hrest ⊢
    cases hg : p.2.getURLResult with
    | none => exact hrest
    | some url =>
      have hurl : url = [] := by simpa [hg] using hp
      simp only [hg, hurl, List.isEmpty_nil, if_true]
      exact hrest

/-- C4: after the fixed capture delay, if no registered handle yields a URL
the conversation list is left completely unchanged (an empty mapping never
overwrites); and if at least one URL was obtained, the mapping is written
into the conversation whose id was current at send time — keyed by that id
alone, so conversations with other ids survive verbatim, and every
conversation carrying the send-time id ends up with exactly the captured
mapping. -/
theorem captureStep_empty_or_keyed (convs : List Conversation) (sendTimeId : Nat)
    (reg : List (Nat × Handle)) :
    ((∀ p ∈ reg, p.2.getURLResult.getD [] = []) →
      captureStep convs sendTimeId reg = convs) ∧
    (captureUrls reg ≠ [] →
      (∀ c ∈ convs, c.id ≠ sendTimeId → c ∈ captureStep convs sendTimeId reg) ∧
      (∀ c ∈ convs, c.id = sendTimeId →
        { c with aiUrls := captureUrls reg } ∈ captureStep convs sendTimeId reg) ∧
      (∀ c' ∈ captureStep convs sendTimeId reg, c'.id = sendTimeId →
        c'.aiUrls = captureUrls reg)) := by
  constructor
  · intro hempty
    have hurls : captureUrls reg = [] := captureUrls_eq_nil reg hempty
    simp [captureStep, hurls]
  · intro hne
    have hpos : 0 < (captureUrls reg).length :=
      List.length_pos.mpr hne
    refine ⟨?_, ?_, ?_⟩
    · intro c hc hcid
      simp only [captureStep, if_pos hpos]
      exact List.mem_map.mpr ⟨c, hc, by simp [hcid]⟩
    · intro c hc hcid
      simp only [captureStep, if_pos hpos]
      exact List.mem_map.mpr ⟨c, hc, by simp [hcid]⟩
    · intro c' hc' hcid'
      simp only [captureStep, if_pos hpos] at hc'
      obtain ⟨c, hc, rfl⟩ := List.mem_map.mp hc'
      by_cases hcid : c.id = sendTimeId
      · simp [hcid]
      · rw [if_neg hcid] at hcid' ⊢
        exact absurd hcid' hcid

/-- Witness for C4: a registry yielding no URLs leaves both conversations
untouched, and a registry yielding one URL rewrites exactly the send-time
conversation. -/
theorem captureStep_empty_or_keyed_witness :
    captureStep C4convs 1 C4regEmpty = C4convs ∧
    { C4conv1 with aiUrls := captureUrls C4regFull } ∈ captureStep C4convs 1 C4regFull ∧
    C4conv2 ∈ captureStep C4convs 1 C4regFull := by
  have h1 := (captureStep_empty_or_keyed C4convs 1 C4regEmpty).1 (by decide)
  have h2 := (captureStep_empty_or_keyed C4convs 1 C4regFull).2 (by decide)
  exact ⟨h1, h2.2.1 C4conv1 (by decide) (by decide),
    h2.1 C4conv2 (by decide) (by decide)⟩

/-! ## C7: dangling recorded ids are tolerated on conversation switch -/

/-- C7: switching to a conversation whose non-empty recorded active set may
contain ids of deleted targets always completes (the switch result exists),
preserves the id sequence of the AI list, activates exactly the targets
whose id is in the recorded set, and introduces no target for a dangling
id — the dangling entries simply match nothing. -/
theorem handleSwitchConversation_tolerates_dangling (convs : List Conversation)
    (l : List AITarget) (conversationId : Nat) (conv : Conversation)
    (hfind : convs.find? (fun c => c.id = conversationId) = some conv)
    (hne : conv.activeAIIds ≠ []) :
    ∃ l' fu, handleSwitchConversation convs l conversationId =
        some (conversationId, l', fu) ∧
      l'.map (fun a => a.id) = l.map (fun a => a.id) ∧
      (∀ a ∈ l', a.active = conv.activeAIIds.contains a.id) ∧
      (∀ d : Nat, d ∉ l.map (fun a => a.id) → d ∉ l'.map (fun a => a.id)) := by
  have hempty : conv.activeAIIds.isEmpty = false := by
    simp [List.isEmpty_iff, hne]
  have hrestore : restoreAIState l conv.activeAIIds =
      l.map (fun ai =>
        { ai with
          active := conv.activeAIIds.contains ai.id,
          displayOrder :=
            if conv.activeAIIds.contains ai.id then
              (conv.activeAIIds.indexOf ai.id : Int) + 1
            else 0 }) := by
    simp [restoreAIState, hempty]
  refine ⟨restoreAIState l conv.activeAIIds,
    (if conv.aiUrls.isEmpty then SwitchFollowUp.resetNewChat
     else SwitchFollowUp.restoreUrls conv.aiUrls), ?_, ?_, ?_, ?_⟩
  · simp [handleSwitchConversation, hfind]
  · rw [hrestore, List.map_map]
    rfl
  · intro a ha
    rw [hrestore] at ha
    obtain ⟨b, hb, rfl⟩ := List.mem_map.mp ha
    rfl
  · intro d hd
    rw [hrestore, List.map_map]
    exact hd

/-- Witness for C7 at a conversation recording the dangling id 99 next to the
live id 1: the switch completes and 99 matches no target. -/
theorem handleSwitchConversation_tolerates_dangling_witness :
    (∃ l' fu, handleSwitchConversation C7convs C7l 1 = some (1, l', fu)) ∧
    (99 : Nat) ∉ C7l.map (fun a => a.id) := by
  obtain ⟨l', fu, heq, hids, hact, hdang⟩ :=
    handleSwitchConversation_tolerates_dangling C7convs C7l 1 C7conv
      (by decide) (by decide)
  exact ⟨⟨l', fu, heq⟩, by decide⟩

/-! ## C8: URL restoration skips, prefers loadURL, falls back to src+reload -/

/-- C8: for the pair at any position of a conversation's URL mapping whose
target has a live handle and a non-empty stored URL, restoration skips when
the handle is already at that URL; otherwise it uses the direct `loadURL`
operation when the handle has one, and else assigns the source attribute,
reloading when the handle supports it. -/
theorem navigateAIsToUrls_skip_load_fallback (reg : List (Nat × Handle))
    (aiUrls : List AISessionUrl) (i : Nat) (aiId : Nat) (url : List Char)
    (h : Handle) (hp : aiUrls[i]? = some ⟨aiId, url⟩)
    (hh : lookupHandle reg aiId = some h) (hu : url ≠ []) :
    (handleCurrentUrl h = url →
      (navigateAIsToUrls reg aiUrls)[i]? = some (NavAction.skip aiId)) ∧
    (handleCurrentUrl h ≠ url → h.hasLoadURL = true →
      (navigateAIsToUrls reg aiUrls)[i]? = some (NavAction.load aiId url)) ∧
    (handleCurrentUrl h ≠ url → h.hasLoadURL = false →
      (navigateAIsToUrls reg aiUrls)[i]? = some (NavAction.setSrc aiId url h.hasReload)) := by
  have hbase : (navigateAIsToUrls reg aiUrls)[i]? =
      some (navigateOne reg ⟨aiId, url⟩) := by
    simp [navigateAIsToUrls, List.getElem?_map, hp]
  have hune : url.isEmpty = false := by simp [List.isEmpty_iff, hu]
  refine ⟨?_, ?_, ?_⟩
  · intro heq
    rw [hbase]
    simp [navigateOne, hh, hune, heq]
  · intro hneq hload
    rw [hbase]
    simp [navigateOne, hh, hune, hneq, hload]
  · intro hneq hload
    rw [hbase]
    simp [navigateOne, hh, hune, hneq, hload]

/-- Witness for C8: one mapping with three pairs exercising all three
branches — already-there (skip), loadURL available (load), loadURL absent
(src assignment plus reload). -/
theorem navigateAIsToUrls_skip_load_fallback_witness :
    (navigateAIsToUrls C8reg C8urls)[0]? = some (NavAction.skip 1) ∧
    (navigateAIsToUrls C8reg C8urls)[1]? = some (NavAction.load 2 ['u', '2']) ∧
    (navigateAIsToUrls C8reg C8urls)[2]? = some (NavAction.setSrc 3 ['u', '3'] true) := by
  refine ⟨?_, ?_, ?_⟩
  · exact (navigateAIsToUrls_skip_load_fallback C8reg C8urls 0 1 ['u', '1'] C8h1
      (by decide) (by decide) (by decide)).1 (by decide)
  · exact (navigateAIsToUrls_skip_load_fallback C8reg C8urls 1 2 ['u', '2'] C8h2
      (by decide) (by decide) (by decide)).2.1 (by decide) (by decide)
  · exact (navigateAIsToUrls_skip_load_fallback C8reg C8urls 2 3 ['u', '3'] C8h3
      (by decide) (by decide) (by decide)).2.2 (by decide) (by decide)

/-! ## C10: a blank input is a complete no-op apart from the transient hint -/

/-- C10: when the input is empty or all whitespace, the send handler only
raises the transient shake and hint flags: no script execution is attempted
against any surface (no outcomes), no message is appended, no capture is
scheduled, and the conversation list, the AI list (hence every
conversation's URL mapping) and the input value are returned unchanged. -/
theorem handleSendClick_blank_is_noop (input : List Char)
    (convs : List Conversation) (activeId : Nat) (l : List AITarget)
    (reg : List (Nat × Handle)) (now : Nat) (shaking0 hint0 : Bool)
    (hblank : trimChars input = []) :
    handleSendClick input convs activeId l reg now shaking0 hint0 =
      { conversations := convs, aiList := l, inputValue := input,
        isShaking := true, showInputHint := true, outcomes := [],
        captureFor := none } := by
  simp [handleSendClick, hblank]

/-- Witness for C10 at a whitespace-only input. -/
theorem handleSendClick_blank_is_noop_witness :
    handleSendClick [' ', ' '] C10convs 1 C10l [] 5 false false =
      { conversations := C10convs, aiList := C10l, inputValue := [' ', ' '],
        isShaking := true, showInputHint := true, outcomes := [],
        captureFor := none } :=
  handleSendClick_blank_is_noop [' ', ' '] C10convs 1 C10l [] 5 false false
    (by decide)

/-! ## C5: display-order invariants under the mutating operations -/

theorem foldr_max_nonneg (xs : List Int) : (0 : Int) ≤ xs.foldr max 0 := by
  induction xs with
  | nil => exact le_refl 0
  | cons y ys ih => exact le_trans ih (le_max_right _ _)

theorem mem_le_foldr_max (x : Int) (xs : List Int) (hx : x ∈ xs) :
    x ≤ xs.foldr max 0 := by
  induction xs with
  | nil => cases hx
  | cons y ys ih =>
    rcases List.mem_cons.mp hx with h | h
    · subst h; exact le_max_left _ _
    · exact le_trans (ih h) (le_max_right _ _)

theorem maxActiveOrder_nonneg (l : List AITarget) : 0 ≤ maxActiveOrder l :=
  foldr_max_nonneg _

theorem le_maxActiveOrder (l : List AITarget) (a : AITarget) (ha : a ∈ l)
    (hact : a.active = true) : a.displayOrder ≤ maxActiveOrder l :=
  mem_le_foldr_max _ _
    (List.mem_map.mpr ⟨a, List.mem_filter.mpr ⟨ha, by simp [hact]⟩, rfl⟩)

theorem orderInv_toggleUpdate (l : List AITarget) (id : Nat)
    (hinv : orderInv l) : orderInv (toggleUpdate (maxActiveOrder l) id l) := by
  obtain ⟨hzero, hpos, hdist⟩ := hinv
  refine ⟨?_, ?_, ?_⟩
  · intro a' ha' hfalse
    obtain ⟨a, ha, rfl⟩ := List.mem_map.mp ha'
    by_cases hid : a.id = id
    · cases hact : a.active with
      | true => simp [hid, hact]
      | false => simp [hid, hact] at hfalse
    · simp [hid] at hfalse ⊢
      exact hzero a ha hfalse
  · intro a' ha' htrue
    obtain ⟨a, ha, rfl⟩ := List.mem_map.mp ha'
    by_cases hid : a.id = id
    · cases hact : a.active with
      | false =>
        have hm := maxActiveOrder_nonneg l
        simp [hid, hact]
        omega
      | true => simp [hid, hact] at htrue
    · simp [hid] at htrue ⊢
      exact hpos a ha htrue
  · intro a' ha' b' hb' ha1 hb1 hne
    obtain ⟨a, ha, rfl⟩ := List.mem_map.mp ha'
    obtain ⟨b, hb, rfl⟩ := List.mem_map.mp hb'
    by_cases hia : a.id = id <;> by_cases hib : b.id = id
    · simp [hia, hib] at hne
    · cases hact : a.active with
      | true => simp [hia, hact] at ha1
      | false =>
        simp [hia, hib, hact] at ha1 hb1 hne ⊢
        have hble := le_maxActiveOrder l b hb hb1
        omega
    · cases hact : b.active with
      | true => simp [hib, hact] at hb1
      | false =>
        simp [hia, hib, hact] at ha1 hb1 hne ⊢
        have hale := le_maxActiveOrder l a ha ha1
        omega
    · simp [hia, hib] at ha1 hb1 hne ⊢
      exact hdist a ha b hb ha1 hb1 hne

theorem orderInv_switchSwap (l : List AITarget) (fromId toId : Nat)
    (f t : AITarget) (hids : (l.map (fun a => a.id)).Nodup) (hinv : orderInv l)
    (hf : l.find? (fun a => a.id = fromId) = some f) (hfact : f.active = true)
    (ht : l.find? (fun a => a.id = toId) = some t) (htact : t.active = true) :
    orderInv (switchSwap l fromId toId) := by
  obtain ⟨hzero, hpos, hdist⟩ := hinv
  have hinj := List.inj_on_of_nodup_map hids
  have hfmem : f ∈ l := List.mem_of_find?_eq_some hf
  have hfid : f.id = fromId := by
    have := List.find?_some hf
    simpa using this
  have htmem : t ∈ l := List.mem_of_find?_eq_some ht
  have htid : t.id = toId := by
    have := List.find?_some ht
    simpa using this
  have hswap : switchSwap l fromId toId = l.map (fun ai =>
      if ai.id = fromId then { ai with displayOrder := t.displayOrder }
      else if ai.id = toId then { ai with displayOrder := f.displayOrder }
      else ai) := by
    simp [switchSwap, hf, ht]
  rw [hswap]
  refine ⟨?_, ?_, ?_⟩
  · intro a' ha' hfalse
    obtain ⟨a, ha, rfl⟩ := List.mem_map.mp ha'
    by_cases hia : a.id = fromId
    · rw [if_pos hia] at hfalse
      have h2 : a.active = false := hfalse
      have haf : a = f := hinj ha hfmem (by rw [hia, hfid])
      rw [haf, hfact] at h2
      exact Bool.noConfusion h2
    · by_cases hit : a.id = toId
      · rw [if_neg hia, if_pos hit] at hfalse
        have h2 : a.active = false := hfalse
        have hat : a = t := hinj ha htmem (by rw [hit, htid])
        rw [hat, htact] at h2
        exact Bool.noConfusion h2
      · rw [if_neg hia, if_neg hit] at hfalse ⊢
        exact hzero a ha hfalse
  · intro a' ha' htrue
    obtain ⟨a, ha, rfl⟩ := List.mem_map.mp ha'
    by_cases hia : a.id = fromId
    · rw [if_pos hia]
      exact hpos t htmem htact
    · by_cases hit : a.id = toId
      · rw [if_neg hia, if_pos hit]
        exact hpos f hfmem hfact
      · rw [if_neg hia, if_neg hit] at htrue ⊢
        exact hpos a ha htrue
  · intro a' ha' b' hb' ha1 hb1 hne
    obtain ⟨a, ha, rfl⟩ := List.mem_map.mp ha'
    obtain ⟨b, hb, rfl⟩ := List.mem_map.mp hb'
    by_cases hia : a.id = fromId
    · rw [if_pos hia] at ha1 hne ⊢
      by_cases hib : b.id = fromId
      · rw [if_pos hib] at hne
        have hne2 : a.id ≠ b.id := hne
        exact absurd (hia.trans hib.symm) hne2
      · rw [if_neg hib] at hb1 hne ⊢
        by_cases hibt : b.id = toId
        · rw [if_pos hibt] at hne ⊢
          have hne2 : a.id ≠ b.id := hne
          have hft : fromId ≠ toId := by rw [← hia, ← hibt]; exact hne2
          show t.displayOrder ≠ f.displayOrder
          exact hdist t htmem f hfmem htact hfact
            (by rw [htid, hfid]; exact Ne.symm hft)
        · rw [if_neg hibt] at hb1 ⊢
          have hb2 : b.active = true := hb1
          show t.displayOrder ≠ b.displayOrder
          refine hdist t htmem b hb htact hb2 ?_
          rw [htid]
          exact fun hh => hibt hh.symm
    · rw [if_neg hia] at ha1 hne ⊢
      by_cases hiat : a.id = toId
      · rw [if_pos hiat] at ha1 hne ⊢
        by_cases hib : b.id = fromId
        · rw [if_pos hib] at hne ⊢
          have hne2 : a.id ≠ b.id := hne
          have htf : toId ≠ fromId := by rw [← hiat, ← hib]; exact hne2
          show f.displayOrder ≠ t.displayOrder
          exact hdist f hfmem t htmem hfact htact
            (by rw [hfid, htid]; exact Ne.symm htf)
        · rw [if_neg hib] at hb1 hne ⊢
          by_cases hibt : b.id = toId
          · rw [if_pos hibt] at hne
            have hne2 : a.id ≠ b.id := hne
            exact absurd (hiat.trans hibt.symm) hne2
          · rw [if_neg hibt] at hb1 ⊢
            have hb2 : b.active = true := hb1
            show f.displayOrder ≠ b.displayOrder
            refine hdist f hfmem b hb hfact hb2 ?_
            rw [hfid]
            exact fun hh => hib hh.symm
      · rw [if_neg hiat] at ha1 hne ⊢
        have ha2 : a.active = true := ha1
        by_cases hib : b.id = fromId
        · rw [if_pos hib] at hne ⊢
          show a.displayOrder ≠ t.displayOrder
          refine hdist a ha t htmem ha2 htact ?_
          rw [htid]
          exact hiat
        · rw [if_neg hib] at hb1 hne ⊢
          by_cases hibt : b.id = toId
          · rw [if_pos hibt] at hne ⊢
            show a.displayOrder ≠ f.displayOrder
            refine hdist a ha f hfmem ha2 hfact ?_
            rw [hfid]
            exact hia
          · rw [if_neg hibt] at hb1 hne ⊢
            exact hdist a ha b hb ha2 hb1 hne

theorem orderInv_switchReplace (l : List AITarget) (fromId toId : Nat)
    (f : AITarget) (hinv : orderInv l)
    (hf : l.find? (fun a => a.id = fromId) = some f) (hfact : f.active = true) :
    orderInv (switchReplace l fromId toId) := by
  obtain ⟨hzero, hpos, hdist⟩ := hinv
  have hfmem : f ∈ l := List.mem_of_find?_eq_some hf
  have hfid : f.id = fromId := by
    have := List.find?_some hf
    simpa using this
  have hrepl : switchReplace l fromId toId = l.map (fun ai =>
      if ai.id = fromId then { ai with active := false, displayOrder := 0 }
      else if ai.id = toId then { ai with active := true, displayOrder := f.displayOrder }
      else ai) := by
    simp [switchReplace, hf]
  rw [hrepl]
  refine ⟨?_, ?_, ?_⟩
  · intro a' ha' hfalse
    obtain ⟨a, ha, rfl⟩ := List.mem_map.mp ha'
    by_cases hia : a.id = fromId
    · rw [if_pos hia]
    · by_cases hit : a.id = toId
      · rw [if_neg hia, if_pos hit] at hfalse
        exact Bool.noConfusion (hfalse : true = false)
      · rw [if_neg hia, if_neg hit] at hfalse ⊢
        exact hzero a ha hfalse
  · intro a' ha' htrue
    obtain ⟨a, ha, rfl⟩ := List.mem_map.mp ha'
    by_cases hia : a.id = fromId
    · rw [if_pos hia] at htrue
      exact Bool.noConfusion (htrue : false = true)
    · by_cases hit : a.id = toId
      · rw [if_neg hia, if_pos hit]
        exact hpos f hfmem hfact
      · rw [if_neg hia, if_neg hit] at htrue ⊢
        exact hpos a ha htrue
  · intro a' ha' b' hb' ha1 hb1 hne
    obtain ⟨a, ha, rfl⟩ := List.mem_map.mp ha'
    obtain ⟨b, hb, rfl⟩ := List.mem_map.mp hb'
    by_cases hia : a.id = fromId
    · rw [if_pos hia] at ha1
      exact Bool.noConfusion (ha1 : false = true)
    · rw [if_neg hia] at ha1 hne ⊢
      by_cases hib : b.id = fromId
      · rw [if_pos hib] at hb1
        exact Bool.noConfusion (hb1 : false = true)
      · rw [if_neg hib] at hb1 hne ⊢
        by_cases hiat : a.id = toId
        · rw [if_pos hiat] at ha1 hne ⊢
          by_cases hibt : b.id = toId
          · rw [if_pos hibt] at hne
            have hne2 : a.id ≠ b.id := hne
            exact absurd (hiat.trans hibt.symm) hne2
          · rw [if_neg hibt] at hb1 hne ⊢
            have hb2 : b.active = true := hb1
            show f.displayOrder ≠ b.displayOrder
            refine hdist f hfmem b hb hfact hb2 ?_
            rw [hfid]
            exact fun hh => hib hh.symm
        · rw [if_neg hiat] at ha1 hne ⊢
          have ha2 : a.active = true := ha1
          by_cases hibt : b.id = toId
          · rw [if_pos hibt] at hne ⊢
            show a.displayOrder ≠ f.displayOrder
            refine hdist a ha f hfmem ha2 hfact ?_
            rw [hfid]
            exact hia
          · rw [if_neg hibt] at hb1 hne ⊢
            exact hdist a ha b hb ha2 hb1 hne

theorem orderInv_restoreAIState (l : List AITarget) (recorded : List Nat)
    (hinv : orderInv l) : orderInv (restoreAIState l recorded) := by
  by_cases hrec : recorded.isEmpty
  · rw [restoreAIState, if_pos hrec]
    exact hinv
  · obtain ⟨hzero, hpos, hdist⟩ := hinv
    rw [restoreAIState, if_neg hrec]
    refine ⟨?_, ?_, ?_⟩
    · intro a' ha' hfalse
      obtain ⟨a, ha, rfl⟩ := List.mem_map.mp ha'
      simp at hfalse ⊢
      simp [hfalse]
    · intro a' ha' htrue
      obtain ⟨a, ha, rfl⟩ := List.mem_map.mp ha'
      simp at htrue ⊢
      simp only [htrue, if_true]
      have hnn : (0 : Int) ≤ (recorded.indexOf a.id : Int) := Int.ofNat_nonneg _
      omega
    · intro a' ha' b' hb' ha1 hb1 hne
      obtain ⟨a, ha, rfl⟩ := List.mem_map.mp ha'
      obtain ⟨b, hb, rfl⟩ := List.mem_map.mp hb'
      simp at ha1 hb1 hne ⊢
      simp only [ha1, hb1, if_true]
      intro heq
      have hidx : recorded.indexOf a.id = recorded.indexOf b.id := by omega
      have hamem : a.id ∈ recorded := by simpa using ha1
      have hbmem : b.id ∈ recorded := by simpa using hb1
      exact hne ((List.indexOf_inj hamem hbmem).mp hidx)

/-- C5 counterexample: the claimed dense-rank invariant does not survive the
mutating operations — deactivating the rank-1 target of two active targets
leaves the remaining active target with rank 2, so the active ranks are no
longer 1..n; and conversation-switch restoration from a recorded set with a
dangling first entry likewise leaves a lone active target at rank 2. -/
theorem handleToggleAIActive_breaks_density :
    denseInv C5exList ∧ ¬ denseInv (handleToggleAIActive C5exList 1).1 ∧
    ¬ denseInv (restoreAIState C5exList [99, 2]) := by
  refine ⟨?_, ?_, ?_⟩
  · decide
  · decide
  · decide

/-- C5 (amended): the toggle, column-switch and conversation-switch
operations preserve the weaker display-order invariant that inactive
targets have order 0 and active targets have unique positive orders (the
column switch under the invariant's operating conditions: distinct ids and
an active source column).  Density (ranks exactly 1..n) does not hold as an
invariant: deactivation leaves a gap in the ranks, and restoration assigns
ranks by position in the recorded set, so dangling recorded ids shift the
ranks of live targets past 1..n as well. -/
theorem orderInv_preserved_by_mutations :
    (∀ (l : List AITarget) (id : Nat), orderInv l →
      orderInv (handleToggleAIActive l id).1) ∧
    (∀ (l : List AITarget) (fromId toId : Nat) (f : AITarget),
      (l.map (fun a => a.id)).Nodup → orderInv l →
      l.find? (fun a => a.id = fromId) = some f → f.active = true →
      orderInv (handleSwitchAI l fromId toId)) ∧
    (∀ (l : List AITarget) (recorded : List Nat), orderInv l →
      orderInv (restoreAIState l recorded)) := by
  refine ⟨?_, ?_, ?_⟩
  · intro l id hinv
    cases hfind : l.find? (fun a => a.id = id) with
    | none =>
      have heq : handleToggleAIActive l id =
          (toggleUpdate (maxActiveOrder l) id l, false) := by
        simp [handleToggleAIActive, hfind]
      rw [heq]
      exact orderInv_toggleUpdate l id hinv
    | some ai =>
      by_cases hguard : ai.active = false ∧ MAX_ACTIVE_AI ≤ activeCount l
      · have heq : handleToggleAIActive l id = (l, true) := by
          simp [handleToggleAIActive, hfind, if_pos hguard]
        rw [heq]
        exact hinv
      · have heq : handleToggleAIActive l id =
            (toggleUpdate (maxActiveOrder l) id l, false) := by
          simp [handleToggleAIActive, hfind, if_neg hguard]
        rw [heq]
        exact orderInv_toggleUpdate l id hinv
  · intro l fromId toId f hids hinv hf hfact
    unfold handleSwitchAI
    by_cases hcond :
        ((l.find? (fun a => a.id = toId)).map (fun a => a.active)).getD false = true
    · rw [if_pos hcond]
      cases ht : l.find? (fun a => a.id = toId) with
      | none => rw [ht] at hcond; simp at hcond
      | some t =>
        rw [ht] at hcond
        simp at hcond
        exact orderInv_switchSwap l fromId toId f t hids hinv hf hfact ht hcond
    · rw [if_neg hcond]
      exact orderInv_switchReplace l fromId toId f hinv hf hfact
  · intro l recorded hinv
    exact orderInv_restoreAIState l recorded hinv

/-- Witness for the amended C5 at concrete inputs: a toggle, a column swap
and a restoration on an invariant-satisfying two-target list. -/
theorem orderInv_preserved_by_mutations_witness :
    orderInv (handleToggleAIActive C5exList 1).1 ∧
    orderInv (handleSwitchAI C5exList 1 2) ∧
    orderInv (restoreAIState C5exList [99, 2]) := by
  have h := orderInv_preserved_by_mutations
  exact ⟨h.1 C5exList 1 (by decide),
    h.2.1 C5exList 1 2 ⟨1, "A", "", true, 1⟩ (by decide) (by decide)
      (by decide) (by decide),
    h.2.2 C5exList [99, 2] (by decide)⟩

/-! ## C6: deletion removes the id from the current conversation only -/

/-- C6 counterexample: deleting target 5 while conversation 1 is current
leaves conversation 2's recorded set still containing 5 — the claim that the
deleted identifier is removed from every conversation's recorded set fails. -/
theorem handleDeleteAI_leaves_dangling_ids :
    ¬ (∀ c ∈ (deleteAIStep C6l C6convs 1 5).2, (5 : Nat) ∉ c.activeAIIds) ∧
    ((deleteAIStep C6l C6convs 1 5).2.map (fun c => c.activeAIIds)) = [[], [5]] := by
  constructor
  · decide
  · decide

/-- C6 (amended): deleting a target removes it from the AI list and — via
the active-set synchronization that the list change triggers — from the
current conversation's recorded set; conversations that are not current are
left unchanged and may retain the now-dangling identifier, which the weak
reference rule tolerates. -/
theorem handleDeleteAI_removes_from_current_only (l : List AITarget)
    (convs : List Conversation) (currentId delId : Nat) :
    (∀ a ∈ (deleteAIStep l convs currentId delId).1, a.id ≠ delId) ∧
    (∀ c ∈ (deleteAIStep l convs currentId delId).2, c.id = currentId →
      delId ∉ c.activeAIIds) ∧
    (∀ c ∈ convs, c.id ≠ currentId →
      c ∈ (deleteAIStep l convs currentId delId).2) := by
  refine ⟨?_, ?_, ?_⟩
  · intro a ha
    simp only [deleteAIStep, handleDeleteAI] at ha
    have h2 := (List.mem_filter.mp ha).2
    simpa using h2
  · intro c hc hcid
    simp only [deleteAIStep, syncActiveAIIds] at hc
    obtain ⟨c0, hc0, rfl⟩ := List.mem_map.mp hc
    by_cases h0 : c0.id = currentId
    · rw [if_pos h0]
      intro hmem
      obtain ⟨a, haf, haid⟩ := List.mem_map.mp hmem
      have hal := List.mem_filter.mp haf
      have hid := (List.mem_filter.mp hal.1).2
      simp at hid
      exact hid haid
    · rw [if_neg h0] at hcid
      exact absurd hcid h0
  · intro c hc hcid
    simp only [deleteAIStep, syncActiveAIIds]
    exact List.mem_map.mpr ⟨c, hc, by rw [if_neg hcid]⟩

/-- Witness for the amended C6: after deleting target 5, the current
conversation's set no longer holds 5 while the non-current conversation
survives verbatim. -/
theorem handleDeleteAI_removes_from_current_only_witness :
    (5 : Nat) ∉ C6conv1upd.activeAIIds ∧
    C6conv2 ∈ (deleteAIStep C6l C6convs 1 5).2 := by
  have h := handleDeleteAI_removes_from_current_only C6l C6convs 1 5
  exact ⟨h.2.1 C6conv1upd (by decide) (by decide),
    h.2.2 C6conv2 (by decide) (by decide)⟩

/-! ## C9: message append and title derivation -/

/-- C9 counterexample: the title of a freshly created conversation is
derived from the first sent message, but when that message itself begins
with the new-conversation mark the second send re-derives the title again —
refuting the claim that after the first sent message the title stays
unchanged until a rename. -/
theorem title_rederived_after_first_message :
    ((handleSendClick ['新', '会', '话', 'A'] C9convs0 1 [] [] 10 false
        false).conversations.map (fun c => c.text)) = [['新', '会', '话', 'A']] ∧
    ((handleSendClick ['B']
        (handleSendClick ['新', '会', '话', 'A'] C9convs0 1 [] [] 10 false
          false).conversations 1 [] [] 20 false false).conversations.map
      (fun c => c.text)) = [['B']] := by
  constructor
  · decide
  · decide

/-- C9 (amended): sending a non-blank input appends exactly one message,
carrying the trimmed text and the send timestamp, to the current
conversation and leaves other conversations untouched; the title is
re-derived (truncated) from the sent text exactly when the current title
still starts with the new-conversation mark, and is left unchanged
otherwise — so a renamed conversation keeps its title, while any title
still carrying the mark (including one derived from a message that itself
starts with the mark) is derived again on the next send. -/
theorem handleSendClick_appends_and_derives_title (input : List Char)
    (convs : List Conversation) (activeId : Nat) (l : List AITarget)
    (reg : List (Nat × Handle)) (now : Nat) (shaking0 hint0 : Bool)
    (hne : trimChars input ≠ []) :
    (handleSendClick input convs activeId l reg now shaking0
        hint0).conversations.length = convs.length ∧
    (∀ c ∈ convs, c.id ≠ activeId →
      c ∈ (handleSendClick input convs activeId l reg now shaking0
        hint0).conversations) ∧
    (∀ c ∈ convs, c.id = activeId →
      { c with
        text := if newChatMark.isPrefixOf c.text then deriveTitle (trimChars input)
                else c.text,
        messages := c.messages ++ [⟨now, trimChars input, now⟩] } ∈
        (handleSendClick input convs activeId l reg now shaking0
          hint0).conversations) ∧
    (∀ c ∈ convs, c.id = activeId → newChatMark.isPrefixOf c.text = false →
      { c with messages := c.messages ++ [⟨now, trimChars input, now⟩] } ∈
        (handleSendClick input convs activeId l reg now shaking0
          hint0).conversations) := by
  have hout : (handleSendClick input convs activeId l reg now shaking0
      hint0).conversations = convs.map (fun c =>
        if c.id = activeId then
          { c with
            text := if newChatMark.isPrefixOf c.text then deriveTitle (trimChars input)
                    else c.text,
            messages := c.messages ++ [⟨now, trimChars input, now⟩] }
        else c) := by
    simp [handleSendClick, hne]
  refine ⟨?_, ?_, ?_, ?_⟩
  · rw [hout]
    exact List.length_map _ _
  · intro c hc hcid
    rw [hout]
    exact List.mem_map.mpr ⟨c, hc, by rw [if_neg hcid]⟩
  · intro c hc hcid
    rw [hout]
    exact List.mem_map.mpr ⟨c, hc, by rw [if_pos hcid]⟩
  · intro c hc hcid hmark
    rw [hout]
    refine List.mem_map.mpr ⟨c, hc, ?_⟩
    rw [if_pos hcid]
    simp [hmark]

/-- Witness for the amended C9: sending to a renamed conversation appends
the message and keeps the title. -/
theorem handleSendClick_appends_and_derives_title_witness :
    { C9convR with messages := C9convR.messages ++ [⟨7, ['h', 'i'], 7⟩] } ∈
      (handleSendClick ['h', 'i'] [C9convR] 1 [] [] 7 false false).conversations := by
  have h := handleSendClick_appends_and_derives_title ['h', 'i'] [C9convR] 1 [] []
    7 false false (by decide)
  exact h.2.2.2 C9convR (by decide) (by decide) (by decide)

/-! ## C3: new-conversation strategy precedence and button search -/

theorem findExactLoop_eq_find? (exact : List Char) (dom : List DomElement) :
    findExactLoop exact dom = dom.find? (fun el =>
      el.inExactPool && (el.text == exact || exact.isPrefixOf el.text) && el.visible) := by
  induction dom with
  | nil => rfl
  | cons el rest ih =>
    simp only [findExactLoop, List.find?_cons]
    cases h : (el.inExactPool && (el.text == exact || exact.isPrefixOf el.text)
        && el.visible) with
    | true => simp [h]
    | false => simp [h, ih]

theorem findSelectorLoop_eq_findSome? (dom : List DomElement)
    (selectors : List (List Char)) :
    findSelectorLoop dom selectors = selectors.findSome? (fun sel =>
      match dom.find? (fun el => el.selMatches.contains sel) with
      | some el => if el.visible then some el else none
      | none => none) := by
  induction selectors with
  | nil => rfl
  | cons sel rest ih =>
    simp only [findSelectorLoop, List.findSome?_cons]
    cases hf : dom.find? (fun el => el.selMatches.contains sel) with
    | none => simp [hf, ih]
    | some el =>
      cases hv : el.visible with
      | true => simp [hf, hv]
      | false => simp [hf, hv, ih]

theorem findKwInner_eq_find? (kw : List Char) (dom : List DomElement) :
    findKwInner kw dom = dom.find? (fun el =>
      el.inKeywordPool && textMatchesKeyword el.text kw && el.visible
        && !el.inDropdown) := by
  induction dom with
  | nil => rfl
  | cons el rest ih =>
    simp only [findKwInner, List.find?_cons]
    cases h : (el.inKeywordPool && textMatchesKeyword el.text kw && el.visible
        && !el.inDropdown) with
    | true => simp [h]
    | false => simp [h, ih]

theorem findKeywordLoop_eq_findSome? (dom : List DomElement)
    (keywords : List (List Char)) :
    findKeywordLoop dom keywords = keywords.findSome? (fun kw =>
      dom.find? (fun el =>
        el.inKeywordPool && textMatchesKeyword el.text kw && el.visible
          && !el.inDropdown)) := by
  induction keywords with
  | nil => rfl
  | cons kw rest ih =>
    simp only [findKeywordLoop, List.findSome?_cons, findKwInner_eq_find?]
    cases hf : dom.find? (fun el =>
        el.inKeywordPool && textMatchesKeyword el.text kw && el.visible
          && !el.inDropdown) with
    | none => simp [hf, ih]
    | some el => simp [hf]

theorem runNewChatSearch_eq_searchSpec (exact : List Char)
    (selectors keywords : List (List Char)) (dom : List DomElement) :
    runNewChatSearch exact selectors keywords dom =
      searchSpec exact selectors keywords dom := by
  unfold runNewChatSearch searchSpec
  rw [findExactLoop_eq_find?, findSelectorLoop_eq_findSome?,
    findKeywordLoop_eq_findSome?]
  cases hx : (if exact.isEmpty then none
      else dom.find? (fun el =>
        el.inExactPool && (el.text == exact || exact.isPrefixOf el.text)
          && el.visible)) with
  | some el => rfl
  | none =>
    cases hy : selectors.findSome? (fun sel =>
        match dom.find? (fun el => el.selMatches.contains sel) with
        | some el => if el.visible then some el else none
        | none => none) with
    | some el => rfl
    | none => rfl

/-- C3 counterexample: with a profile configured only with the label
`Start fresh` and a page whose single visible button reads
`Start fresh now please`, the generated script's search clicks the button
(prefix match), while the search the claim describes — exact label equality,
dropdown exclusion in every phase — clicks nothing; the claim's description
of the selected strategy is therefore wrong on this input. -/
theorem generateNewChatScript_search_not_exact_only :
    generateNewChatScript C3cfg =
      NewChatScript.search C3exact (splitCommaSpace []) newChatKeywords ∧
    runNewChatSearch C3exact (splitCommaSpace []) newChatKeywords C3dom = some C3el ∧
    claimNewChatSearch C3exact (splitCommaSpace []) newChatKeywords C3dom = none := by
  refine ⟨rfl, ?_, ?_⟩
  · decide
  · decide

/-- C3 (amended): `generateNewChatScript` follows exactly one strategy,
selected by the fixed precedence navigation URL over keyboard shortcut over
selector/keyword search; the shortcut strategy synthesizes a keydown/keyup
pair with identical (matching) modifier flags; and the search strategy
clicks the first visible element whose text equals or starts with the
configured label, else the first visible element matched by one of the
configured selectors, else the first visible element matching a fallback
keyword phrase, where the dropdown-container exclusion applies in the
keyword phase. -/
theorem generateNewChatScript_precedence_and_search :
    (∀ (cfg : NewChatConfig) (url : List Char), cfg.newChatUrl = some url →
      generateNewChatScript cfg = NewChatScript.navigate url) ∧
    (∀ (cfg : NewChatConfig) (s : ShortcutSpec), cfg.newChatUrl = none →
      cfg.newChatShortcut = some s →
      generateNewChatScript cfg =
        NewChatScript.shortcut
          ⟨s.key, s.ctrlKey.getD false, s.shiftKey.getD false,
            s.altKey.getD false, false⟩
          ⟨s.key, s.ctrlKey.getD false, s.shiftKey.getD false,
            s.altKey.getD false, false⟩ ∧
      ∀ down up, generateNewChatScript cfg = NewChatScript.shortcut down up →
        down = up) ∧
    (∀ (cfg : NewChatConfig), cfg.newChatUrl = none →
      cfg.newChatShortcut = none →
      generateNewChatScript cfg =
        NewChatScript.search (cfg.newChatText.getD [])
          (splitCommaSpace (cfg.newChatSelector.getD [])) newChatKeywords) ∧
    (∀ (exact : List Char) (selectors keywords : List (List Char))
      (dom : List DomElement),
      runNewChatSearch exact selectors keywords dom =
        searchSpec exact selectors keywords dom) := by
  refine ⟨?_, ?_, ?_, ?_⟩
  · intro cfg url hurl
    simp [generateNewChatScript, hurl]
  · intro cfg s hurl hsc
    have heq : generateNewChatScript cfg =
        NewChatScript.shortcut
          ⟨s.key, s.ctrlKey.getD false, s.shiftKey.getD false,
            s.altKey.getD false, false⟩
          ⟨s.key, s.ctrlKey.getD false, s.shiftKey.getD false,
            s.altKey.getD false, false⟩ := by
      simp [generateNewChatScript, hurl, hsc]
    refine ⟨heq, ?_⟩
    intro down up hdu
    rw [heq] at hdu
    injection hdu with h1 h2
    rw [← h1, ← h2]
  · intro cfg hurl hsc
    simp [generateNewChatScript, hurl, hsc]
  · intro exact selectors keywords dom
    exact runNewChatSearch_eq_searchSpec exact selectors keywords dom

/-- Witness for the amended C3: a URL-configured profile navigates, a
shortcut-configured profile emits a matching keydown/keyup pair, and the
search equivalence holds on the concrete page of the counterexample. -/
theorem generateNewChatScript_precedence_and_search_witness :
    generateNewChatScript C3cfgUrl = NewChatScript.navigate ['u'] ∧
    generateNewChatScript C3cfgShortcut =
      NewChatScript.shortcut ⟨'j', true, false, false, false⟩
        ⟨'j', true, false, false, false⟩ ∧
    runNewChatSearch C3exact (splitCommaSpace []) newChatKeywords C3dom =
      searchSpec C3exact (splitCommaSpace []) newChatKeywords C3dom := by
  have h := generateNewChatScript_precedence_and_search
  refine ⟨h.1 C3cfgUrl ['u'] rfl, ?_,
    h.2.2.2 C3exact (splitCommaSpace []) newChatKeywords C3dom⟩
  exact (h.2.1 C3cfgShortcut ⟨'j', some true, none, none⟩ rfl rfl).1
